import Mathlib

/-!
Verification development for the in-memory storage layer of the
product-catalogue server (`server/storage.ts`, class `MemStorage`).

The TypeScript class keeps one JavaScript `Map` per entity type plus
per-type auto-increment counters.  We embed each `Map` as an
insertion-ordered association list (`List (K × V)`): `Map.get` is a
first-match lookup, `Map.set` updates in place when the key is present
and appends otherwise, `Map.delete` removes the binding, and
`Map.values()` lists the values in insertion order — exactly the
JavaScript semantics for a single-threaded interpreter.

Monetary columns (`real` in the schema) are modelled as rationals,
integer counters as `Int` (JavaScript numbers can go negative when the
code decrements), identifiers and timestamps as `Nat`; every call to
`new Date()` becomes an explicit `now : Nat` argument.
-/

namespace CatalogueStore

/-! ### JavaScript `Map` as an insertion-ordered association list -/

def mapGet {K V : Type} [BEq K] (m : List (K × V)) (k : K) : Option V :=
  (m.find? (fun e => e.1 == k)).map (fun e => e.2)

def mapHas {K V : Type} [BEq K] (m : List (K × V)) (k : K) : Bool :=
  m.any (fun e => e.1 == k)

def mapSet {K V : Type} [BEq K] (m : List (K × V)) (k : K) (v : V) : List (K × V) :=
  if mapHas m k then m.map (fun e => if e.1 == k then (k, v) else e) else m ++ [(k, v)]

def mapDelete {K V : Type} [BEq K] (m : List (K × V)) (k : K) : List (K × V) :=
  m.filter (fun e => !(e.1 == k))

def mapValues {K V : Type} (m : List (K × V)) : List V := m.map (fun e => e.2)

/-! ### Decimal rendering of a natural number

The join table is keyed by the template literal `` `${catalogueId}:${productId}` ``.
JavaScript renders a (non-negative integral) number in decimal; `toDecCore`
is the usual fuel-indexed digit loop (the fuel `n + 1` always suffices). -/

def toDecCore : Nat → Nat → List Char → List Char
  | 0, _, ds => ds
  | fuel + 1, n, ds =>
    let d := Nat.digitChar (n % 10)
    if n / 10 = 0 then d :: ds else toDecCore fuel (n / 10) (d :: ds)

def numStr (n : Nat) : String := ⟨toDecCore (n + 1) n []⟩

/-- The composite join-table key `` `${catalogueId}:${productId}` ``. -/
def cpKey (catalogueId productId : Nat) : String :=
  numStr catalogueId ++ ":" ++ numStr productId

/-! ### Data model (from `shared/schema.ts`) -/

inductive OrderStatus : Type
  | pending
  | processing
  | shipped
  | delivered
  | cancelled
  deriving DecidableEq

inductive StockStatus : Type
  | in_stock
  | low_stock
  | out_of_stock
  deriving DecidableEq

structure User : Type where
  id : Nat
  username : String
  password : String
  storeName : Option String
  storeDescription : Option String
  storeUrl : Option String
  whatsappNumber : Option String
  primaryColor : Option String
  deriving DecidableEq

/-- `UpdateStoreSettings` (`updateStoreSettingsSchema`): all five settings
keys optional; a missing key leaves the user's field untouched. -/
structure SettingsPatch : Type where
  storeName : Option String
  storeDescription : Option String
  storeUrl : Option String
  whatsappNumber : Option String
  primaryColor : Option String
  deriving DecidableEq

structure Product : Type where
  id : Nat
  name : String
  description : Option String
  sku : String
  price : ℚ
  stock : Int
  stockStatus : StockStatus
  imageUrl : Option String
  categoryId : Nat
  userId : Nat
  createdAt : Nat
  deriving DecidableEq

structure InsertProduct : Type where
  name : String
  description : Option String
  sku : String
  price : ℚ
  stock : Int
  stockStatus : StockStatus
  imageUrl : Option String
  categoryId : Nat
  userId : Nat
  deriving DecidableEq

/-- `Partial<InsertProduct>`: present fields overwrite on spread. -/
structure ProductPatch : Type where
  name : Option String
  description : Option (Option String)
  sku : Option String
  price : Option ℚ
  stock : Option Int
  stockStatus : Option StockStatus
  imageUrl : Option (Option String)
  categoryId : Option Nat
  userId : Option Nat
  deriving DecidableEq

structure Category : Type where
  id : Nat
  name : String
  description : Option String
  userId : Nat
  deriving DecidableEq

structure InsertCategory : Type where
  name : String
  description : Option String
  userId : Nat
  deriving DecidableEq

structure CategoryPatch : Type where
  name : Option String
  description : Option (Option String)
  userId : Option Nat
  deriving DecidableEq

structure Catalogue : Type where
  id : Nat
  name : String
  description : Option String
  imageUrl : Option String
  userId : Nat
  isPublic : Option Bool
  viewCount : Nat
  shareCount : Nat
  createdAt : Nat
  deriving DecidableEq

structure InsertCatalogue : Type where
  name : String
  description : Option String
  imageUrl : Option String
  userId : Nat
  isPublic : Option Bool
  deriving DecidableEq

structure CataloguePatch : Type where
  name : Option String
  description : Option (Option String)
  imageUrl : Option (Option String)
  userId : Option Nat
  isPublic : Option (Option Bool)
  deriving DecidableEq

/-- A value of the `catalogueProducts` map: `{ catalogueId, productId }`. -/
structure CatalogueProduct : Type where
  catalogueId : Nat
  productId : Nat
  deriving DecidableEq

/-- An order row.  `status` is an `Option` because `createOrder` builds the
row by spreading the insert payload, whose `status` key may be absent
(the zod insert schema marks defaulted columns optional). -/
structure Order : Type where
  id : Nat
  orderNumber : String
  customerName : String
  customerEmail : Option String
  customerPhone : Option String
  totalAmount : ℚ
  status : Option OrderStatus
  userId : Nat
  createdAt : Nat
  updatedAt : Nat
  deriving DecidableEq

structure InsertOrder : Type where
  orderNumber : String
  customerName : String
  customerEmail : Option String
  customerPhone : Option String
  totalAmount : ℚ
  status : Option OrderStatus
  userId : Nat
  deriving DecidableEq

structure OrderItem : Type where
  id : Nat
  orderId : Nat
  productId : Nat
  quantity : Int
  price : ℚ
  deriving DecidableEq

structure InsertOrderItem : Type where
  orderId : Nat
  productId : Nat
  quantity : Int
  price : ℚ
  deriving DecidableEq

structure StoreStats : Type where
  id : Nat
  userId : Nat
  totalRevenue : ℚ
  totalOrders : Int
  cataloguesShared : Int
  totalProducts : Int
  revenueChange : ℚ
  ordersChange : Int
  sharesChange : Int
  productsChange : Int
  pendingOrders : Int
  processingOrders : Int
  completedOrders : Int
  cancelledOrders : Int
  updatedAt : Nat
  deriving DecidableEq

/-- `Partial<StoreStats>` restricted to the counter fields the call sites
patch; spreading it over a `StoreStats` overwrites the present fields. -/
structure StatsPatch : Type where
  totalRevenue : Option ℚ
  totalOrders : Option Int
  cataloguesShared : Option Int
  totalProducts : Option Int
  revenueChange : Option ℚ
  ordersChange : Option Int
  sharesChange : Option Int
  productsChange : Option Int
  pendingOrders : Option Int
  processingOrders : Option Int
  completedOrders : Option Int
  cancelledOrders : Option Int
  deriving DecidableEq

/-- The all-`none` patch (`const statsUpdate: Partial<StoreStats> = {}`). -/
def StatsPatch.empty : StatsPatch :=
  ⟨none, none, none, none, none, none, none, none, none, none, none, none⟩

/-- `{ ...stats, ...statsUpdate }`. -/
def applyStatsPatch (s : StoreStats) (p : StatsPatch) : StoreStats where
  id := s.id
  userId := s.userId
  totalRevenue := p.totalRevenue.getD s.totalRevenue
  totalOrders := p.totalOrders.getD s.totalOrders
  cataloguesShared := p.cataloguesShared.getD s.cataloguesShared
  totalProducts := p.totalProducts.getD s.totalProducts
  revenueChange := p.revenueChange.getD s.revenueChange
  ordersChange := p.ordersChange.getD s.ordersChange
  sharesChange := p.sharesChange.getD s.sharesChange
  productsChange := p.productsChange.getD s.productsChange
  pendingOrders := p.pendingOrders.getD s.pendingOrders
  processingOrders := p.processingOrders.getD s.processingOrders
  completedOrders := p.completedOrders.getD s.completedOrders
  cancelledOrders := p.cancelledOrders.getD s.cancelledOrders
  updatedAt := s.updatedAt

/-- The private fields of `class MemStorage`: one map per entity type and
the per-type auto-increment counters. -/
structure MemStorage : Type where
  users : List (Nat × User)
  products : List (Nat × Product)
  categories : List (Nat × Category)
  catalogues : List (Nat × Catalogue)
  catalogueProducts : List (String × CatalogueProduct)
  orders : List (Nat × Order)
  orderItems : List (Nat × List OrderItem)
  stats : List (Nat × StoreStats)
  userId : Nat
  productId : Nat
  categoryId : Nat
  catalogueId : Nat
  catalogueProductId : Nat
  orderId : Nat
  orderItemId : Nat
  statsId : Nat
  deriving DecidableEq

/-- A freshly constructed store before any seeding: empty maps, all
counters at 1. -/
def emptyStorage : MemStorage where
  users := []
  products := []
  categories := []
  catalogues := []
  catalogueProducts := []
  orders := []
  orderItems := []
  stats := []
  userId := 1
  productId := 1
  categoryId := 1
  catalogueId := 1
  catalogueProductId := 1
  orderId := 1
  orderItemId := 1
  statsId := 1

/-! ### Storage operations (`MemStorage` methods)

Each method is a function on the store state; methods returning a value
return it paired with the updated state. -/

namespace MemStorage

def getUser (s : MemStorage) (id : Nat) : Option User :=
  mapGet s.users id

/-- `updateStoreSettings` throws when the user is missing — the single
hard failure in the class — so it returns `Except`. -/
def updateStoreSettings (s : MemStorage) (userId : Nat) (settings : SettingsPatch) :
    Except String (User × MemStorage) :=
  match getUser s userId with
  | none => .error ("User with ID " ++ numStr userId ++ " not found")
  | some user =>
    let updatedUser : User :=
      { id := user.id
        username := user.username
        password := user.password
        storeName := settings.storeName.orElse fun _ => user.storeName
        storeDescription := settings.storeDescription.orElse fun _ => user.storeDescription
        storeUrl := settings.storeUrl.orElse fun _ => user.storeUrl
        whatsappNumber := settings.whatsappNumber.orElse fun _ => user.whatsappNumber
        primaryColor := settings.primaryColor.orElse fun _ => user.primaryColor }
    .ok (updatedUser, { s with users := mapSet s.users userId updatedUser })

def getStoreStats (s : MemStorage) (userId : Nat) : Option StoreStats :=
  (mapValues s.stats).find? (fun st => st.userId == userId)

/-- `updateStoreStats`: lazily creates a zeroed record when the user has
none, then spreads the patch over it and refreshes `updatedAt`. -/
def updateStoreStats (s : MemStorage) (userId : Nat) (patch : StatsPatch) (now : Nat) :
    StoreStats × MemStorage :=
  let found := getStoreStats s userId
  let base : StoreStats :=
    match found with
    | some st => st
    | none =>
      { id := s.statsId
        userId := userId
        totalRevenue := 0
        totalOrders := 0
        cataloguesShared := 0
        totalProducts := 0
        revenueChange := 0
        ordersChange := 0
        sharesChange := 0
        productsChange := 0
        pendingOrders := 0
        processingOrders := 0
        completedOrders := 0
        cancelledOrders := 0
        updatedAt := now }
  let s1 : MemStorage :=
    match found with
    | some _ => s
    | none => { s with statsId := s.statsId + 1 }
  let updatedStats : StoreStats := { applyStatsPatch base patch with updatedAt := now }
  (updatedStats, { s1 with stats := mapSet s1.stats updatedStats.id updatedStats })

def getProduct (s : MemStorage) (id : Nat) : Option Product :=
  mapGet s.products id

def getProducts (s : MemStorage) (userId : Nat) : List Product :=
  (mapValues s.products).filter (fun p => p.userId == userId)

def createProduct (s : MemStorage) (ip : InsertProduct) (now : Nat) :
    Product × MemStorage :=
  let id := s.productId
  let product : Product :=
    { id := id
      name := ip.name
      description := ip.description
      sku := ip.sku
      price := ip.price
      stock := ip.stock
      stockStatus := ip.stockStatus
      imageUrl := ip.imageUrl
      categoryId := ip.categoryId
      userId := ip.userId
      createdAt := now }
  let s1 : MemStorage :=
    { s with products := mapSet s.products id product, productId := s.productId + 1 }
  match getStoreStats s1 ip.userId with
  | none => (product, s1)
  | some st =>
    (product,
      (updateStoreStats s1 ip.userId
        { StatsPatch.empty with
            totalProducts := some (st.totalProducts + 1)
            productsChange := some (st.productsChange + 1) } now).2)

def updateProduct (s : MemStorage) (id : Nat) (p : ProductPatch) :
    Option Product × MemStorage :=
  match getProduct s id with
  | none => (none, s)
  | some existing =>
    let updated : Product :=
      { id := existing.id
        name := p.name.getD existing.name
        description := p.description.getD existing.description
        sku := p.sku.getD existing.sku
        price := p.price.getD existing.price
        stock := p.stock.getD existing.stock
        stockStatus := p.stockStatus.getD existing.stockStatus
        imageUrl := p.imageUrl.getD existing.imageUrl
        categoryId := p.categoryId.getD existing.categoryId
        userId := p.userId.getD existing.userId
        createdAt := existing.createdAt }
    (some updated, { s with products := mapSet s.products id updated })

def deleteProduct (s : MemStorage) (id : Nat) : Bool × MemStorage :=
  (mapHas s.products id, { s with products := mapDelete s.products id })

def getCategory (s : MemStorage) (id : Nat) : Option Category :=
  mapGet s.categories id

def createCategory (s : MemStorage) (ic : InsertCategory) : Category × MemStorage :=
  let id := s.categoryId
  let category : Category :=
    { id := id, name := ic.name, description := ic.description, userId := ic.userId }
  (category,
    { s with categories := mapSet s.categories id category, categoryId := s.categoryId + 1 })

def updateCategory (s : MemStorage) (id : Nat) (p : CategoryPatch) :
    Option Category × MemStorage :=
  match getCategory s id with
  | none => (none, s)
  | some existing =>
    let updated : Category :=
      { id := existing.id
        name := p.name.getD existing.name
        description := p.description.getD existing.description
        userId := p.userId.getD existing.userId }
    (some updated, { s with categories := mapSet s.categories id updated })

def getCatalogue (s : MemStorage) (id : Nat) : Option Catalogue :=
  mapGet s.catalogues id

def getCatalogues (s : MemStorage) (userId : Nat) : List Catalogue :=
  (mapValues s.catalogues).filter (fun c => c.userId == userId)

def createCatalogue (s : MemStorage) (ic : InsertCatalogue) (now : Nat) :
    Catalogue × MemStorage :=
  let id := s.catalogueId
  let catalogue : Catalogue :=
    { id := id
      name := ic.name
      description := ic.description
      imageUrl := ic.imageUrl
      userId := ic.userId
      isPublic := ic.isPublic
      viewCount := 0
      shareCount := 0
      createdAt := now }
  (catalogue,
    { s with catalogues := mapSet s.catalogues id catalogue, catalogueId := s.catalogueId + 1 })

def updateCatalogue (s : MemStorage) (id : Nat) (p : CataloguePatch) :
    Option Catalogue × MemStorage :=
  match getCatalogue s id with
  | none => (none, s)
  | some existing =>
    let updated : Catalogue :=
      { id := existing.id
        name := p.name.getD existing.name
        description := p.description.getD existing.description
        imageUrl := p.imageUrl.getD existing.imageUrl
        userId := p.userId.getD existing.userId
        isPublic := p.isPublic.getD existing.isPublic
        viewCount := existing.viewCount
        shareCount := existing.shareCount
        createdAt := existing.createdAt }
    (some updated, { s with catalogues := mapSet s.catalogues id updated })

/-- `deleteCatalogue` first removes every join row whose `catalogueId`
matches, then deletes the catalogue itself. -/
def deleteCatalogue (s : MemStorage) (id : Nat) : Bool × MemStorage :=
  let cps := s.catalogueProducts.filter (fun e => !(e.2.catalogueId == id))
  (mapHas s.catalogues id,
    { s with catalogueProducts := cps, catalogues := mapDelete s.catalogues id })

def incrementCatalogueViewCount (s : MemStorage) (id : Nat) : MemStorage :=
  match getCatalogue s id with
  | none => s
  | some c =>
    { s with catalogues := mapSet s.catalogues id { c with viewCount := c.viewCount + 1 } }

def incrementCatalogueShareCount (s : MemStorage) (id : Nat) (now : Nat) : MemStorage :=
  match getCatalogue s id with
  | none => s
  | some c =>
    let s1 : MemStorage :=
      { s with catalogues := mapSet s.catalogues id { c with shareCount := c.shareCount + 1 } }
    match getStoreStats s1 c.userId with
    | none => s1
    | some st =>
      (updateStoreStats s1 c.userId
        { StatsPatch.empty with
            cataloguesShared := some (st.cataloguesShared + 1)
            sharesChange := some (st.sharesChange + 1) } now).2

/-- Descending-viewCount comparator: `catalogues.sort((a, b) => b.viewCount - a.viewCount)`.
`viewCountGe a b` states that `a` may come before `b` in the sorted output. -/
def viewCountGe (a b : Catalogue) : Prop := b.viewCount ≤ a.viewCount

instance : DecidableRel viewCountGe := fun a b => Nat.decLe b.viewCount a.viewCount

instance : IsTotal Catalogue viewCountGe :=
  ⟨fun a b => (Nat.le_total a.viewCount b.viewCount).symm⟩

instance : IsTrans Catalogue viewCountGe :=
  ⟨fun _ _ _ hab hbc => Nat.le_trans hbc hab⟩

/-- `getPopularCatalogues`: the user's catalogues, stably sorted by
descending `viewCount` (ECMAScript `Array.prototype.sort` is stable),
truncated to `limit`. -/
def getPopularCatalogues (s : MemStorage) (userId : Nat) (limit : Nat) : List Catalogue :=
  ((getCatalogues s userId).insertionSort viewCountGe).take limit

/-- The declared default for the optional `limit` parameter is 3. -/
def getPopularCataloguesDefault (s : MemStorage) (userId : Nat) : List Catalogue :=
  getPopularCatalogues s userId 3

def addProductToCatalogue (s : MemStorage) (catalogueId productId : Nat) : MemStorage :=
  let key := cpKey catalogueId productId
  if mapHas s.catalogueProducts key then s
  else
    { s with
        catalogueProducts := mapSet s.catalogueProducts key ⟨catalogueId, productId⟩
        catalogueProductId := s.catalogueProductId + 1 }

def removeProductFromCatalogue (s : MemStorage) (catalogueId productId : Nat) : MemStorage :=
  { s with catalogueProducts := mapDelete s.catalogueProducts (cpKey catalogueId productId) }

def getProductsInCatalogue (s : MemStorage) (catalogueId : Nat) : List Product :=
  let productIds :=
    ((mapValues s.catalogueProducts).filter (fun cp => cp.catalogueId == catalogueId)).map
      (fun cp => cp.productId)
  (mapValues s.products).filter (fun p => productIds.contains p.id)

def getOrder (s : MemStorage) (id : Nat) : Option Order :=
  mapGet s.orders id

/-- `createOrder`: stores the order built by spreading the insert payload
(so the supplied `status` field, when present, is kept verbatim), stores
one `OrderItem` per requested item — each item's `id` is the shadowing
outer order `id`, while the `orderItemId` counter is advanced once per
item without its values being used — and then bumps the owner's stats
only when a stats record already exists. -/
def createOrder (s : MemStorage) (io : InsertOrder) (items : List InsertOrderItem)
    (now : Nat) : Order × MemStorage :=
  let id := s.orderId
  let order : Order :=
    { id := id
      orderNumber := io.orderNumber
      customerName := io.customerName
      customerEmail := io.customerEmail
      customerPhone := io.customerPhone
      totalAmount := io.totalAmount
      status := io.status
      userId := io.userId
      createdAt := now
      updatedAt := now }
  let orderItemsList : List OrderItem :=
    items.map (fun item =>
      { id := id
        orderId := id
        productId := item.productId
        quantity := item.quantity
        price := item.price })
  let s1 : MemStorage :=
    { s with
        orders := mapSet s.orders id order
        orderItems := mapSet s.orderItems id orderItemsList
        orderId := s.orderId + 1
        orderItemId := s.orderItemId + items.length }
  match getStoreStats s1 io.userId with
  | none => (order, s1)
  | some st =>
    (order,
      (updateStoreStats s1 io.userId
        { StatsPatch.empty with
            totalOrders := some (st.totalOrders + 1)
            ordersChange := some (st.ordersChange + 1)
            totalRevenue := some (st.totalRevenue + io.totalAmount)
            pendingOrders := some (st.pendingOrders + 1) } now).2)

/-- `updateOrderStatus` builds a single `statsUpdate` object: first the
decrement branch for the old status writes a field, then the increment
branch for the new status writes a field — overwriting the decrement
when both statuses map to the same bucket.  `(x || 0) + 1` on an integer
equals `x + 1` (because `0 || 0` is `0`), so the increments are embedded
as `st.f + 1`. -/
def updateOrderStatus (s : MemStorage) (id : Nat) (status : OrderStatus) (now : Nat) :
    Option Order × MemStorage :=
  match getOrder s id with
  | none => (none, s)
  | some order =>
    let oldStatus := order.status
    let updatedOrder : Order := { order with status := some status, updatedAt := now }
    let s1 : MemStorage := { s with orders := mapSet s.orders id updatedOrder }
    match getStoreStats s1 order.userId with
    | none => (some updatedOrder, s1)
    | some st =>
      let patch0 : StatsPatch := StatsPatch.empty
      let patch1 : StatsPatch :=
        match oldStatus with
        | some .pending => { patch0 with pendingOrders := some (st.pendingOrders - 1) }
        | some .processing => { patch0 with processingOrders := some (st.processingOrders - 1) }
        | some .delivered => { patch0 with completedOrders := some (st.completedOrders - 1) }
        | some .shipped => { patch0 with completedOrders := some (st.completedOrders - 1) }
        | some .cancelled => { patch0 with cancelledOrders := some (st.cancelledOrders - 1) }
        | none => patch0
      let patch2 : StatsPatch :=
        match status with
        | .pending => { patch1 with pendingOrders := some (st.pendingOrders + 1) }
        | .processing => { patch1 with processingOrders := some (st.processingOrders + 1) }
        | .delivered => { patch1 with completedOrders := some (st.completedOrders + 1) }
        | .shipped => { patch1 with completedOrders := some (st.completedOrders + 1) }
        | .cancelled => { patch1 with cancelledOrders := some (st.cancelledOrders + 1) }
      (some updatedOrder, (updateStoreStats s1 order.userId patch2 now).2)

end MemStorage

open MemStorage

/-! ### The composite join key is injective

`cpKey c p = "<decimal c>:<decimal p>"`; decimal digit strings never
contain `':'` and determine their number, so the key determines the pair. -/

theorem toDecCore_mem (fuel : Nat) :
    ∀ (n : Nat) (ds : List Char) (c : Char), c ∈ toDecCore fuel n ds →
      c ∈ ds ∨ ∃ d, d < 10 ∧ c = Nat.digitChar d := by
  induction fuel with
  | zero => intro n ds c hc; exact Or.inl hc
  | succ fuel ih =>
    intro n ds c hc
    unfold toDecCore at hc
    by_cases h0 : n / 10 = 0
    · simp only [h0, if_pos] at hc
      rcases List.mem_cons.mp hc with h | h
      · exact Or.inr ⟨n % 10, Nat.mod_lt n (by norm_num), h⟩
      · exact Or.inl h
    · simp only [h0, if_neg, if_false] at hc
      rcases ih (n / 10) _ c hc with h | h
      · rcases List.mem_cons.mp h with h | h
        · exact Or.inr ⟨n % 10, Nat.mod_lt n (by norm_num), h⟩
        · exact Or.inl h
      · exact Or.inr h

theorem toDecCore_append (fuel : Nat) :
    ∀ (n : Nat) (ds : List Char), n < fuel →
      toDecCore fuel n ds = toDecCore fuel n [] ++ ds := by
  induction fuel with
  | zero => intro n ds hn; omega
  | succ fuel ih =>
    intro n ds hn
    by_cases h0 : n / 10 = 0
    · simp [toDecCore, h0]
    · have hpos : 0 < n := by
        rcases Nat.eq_zero_or_pos n with h | h
        · subst h; simp at h0
        · exact h
      have hlt : n / 10 < fuel :=
        Nat.lt_of_lt_of_le (Nat.div_lt_self hpos (by norm_num)) (Nat.lt_succ_iff.mp hn)
      simp only [toDecCore, h0, if_neg, if_false]
      rw [ih (n / 10) _ hlt, ih (n / 10) [Nat.digitChar (n % 10)] hlt,
        List.append_assoc]
      rfl

theorem digitChar_ne_colon (d : Nat) (h : d < 10) : Nat.digitChar d ≠ ':' := by
  interval_cases d <;> decide

theorem digitChar_val (d : Nat) (h : d < 10) : (Nat.digitChar d).toNat - 48 = d := by
  interval_cases d <;> decide

/-- Reads a decimal digit string back as a number. -/
def decVal (l : List Char) : Nat :=
  l.foldl (fun a c => a * 10 + (c.toNat - '0'.toNat)) 0

theorem foldl_toDecCore (fuel : Nat) :
    ∀ n : Nat, n < fuel → ∀ acc : Nat,
      (toDecCore fuel n []).foldl (fun a c => a * 10 + (c.toNat - '0'.toNat)) acc
        = acc * 10 ^ (toDecCore fuel n []).length + n := by
  induction fuel with
  | zero => intro n hn; omega
  | succ fuel ih =>
    intro n hn acc
    by_cases h0 : n / 10 = 0
    · have hn10 : n < 10 := by
        by_contra hge
        have : 1 ≤ n / 10 := (Nat.le_div_iff_mul_le (by norm_num)).mpr (by omega)
        omega
      have hmod : n % 10 = n := Nat.mod_eq_of_lt hn10
      simp [toDecCore, h0, hmod, digitChar_val n hn10]
    · have hpos : 0 < n := by
        rcases Nat.eq_zero_or_pos n with h | h
        · subst h; simp at h0
        · exact h
      have hlt : n / 10 < fuel :=
        Nat.lt_of_lt_of_le (Nat.div_lt_self hpos (by norm_num)) (Nat.lt_succ_iff.mp hn)
      have hmlt : n % 10 < 10 := Nat.mod_lt n (by norm_num)
      simp only [toDecCore, h0, if_neg, if_false]
      rw [toDecCore_append fuel (n / 10) [Nat.digitChar (n % 10)] hlt]
      rw [List.foldl_append, ih (n / 10) hlt acc]
      simp [digitChar_val (n % 10) hmlt, pow_succ]
      have hdm : 10 * (n / 10) + n % 10 = n := Nat.div_add_mod n 10
      calc (acc * 10 ^ (toDecCore fuel (n / 10) []).length + n / 10) * 10 + n % 10
          = acc * (10 ^ (toDecCore fuel (n / 10) []).length * 10)
              + (10 * (n / 10) + n % 10) := by ring
        _ = acc * (10 ^ (toDecCore fuel (n / 10) []).length * 10) + n := by rw [hdm]

theorem decVal_toDecCore (n : Nat) : decVal (toDecCore (n + 1) n []) = n := by
  have := foldl_toDecCore (n + 1) n (Nat.lt_succ_self n) 0
  simpa [decVal] using this

theorem numStr_data (n : Nat) : (numStr n).data = toDecCore (n + 1) n [] := rfl

theorem numStr_inj {m n : Nat} (h : numStr m = numStr n) : m = n := by
  have hd : toDecCore (m + 1) m [] = toDecCore (n + 1) n [] := congrArg String.data h
  have := decVal_toDecCore m
  rw [hd, decVal_toDecCore n] at this
  exact this.symm

theorem numStr_no_colon (n : Nat) : ∀ c ∈ toDecCore (n + 1) n [], c ≠ ':' := by
  intro c hc
  rcases toDecCore_mem (n + 1) n [] c hc with h | ⟨d, hd, rfl⟩
  · simp at h
  · exact digitChar_ne_colon d hd

theorem append_sep_inj {x : Char} :
    ∀ (a a' b b' : List Char), (∀ c ∈ a, c ≠ x) → (∀ c ∈ a', c ≠ x) →
      a ++ x :: b = a' ++ x :: b' → a = a' ∧ b = b' := by
  intro a
  induction a with
  | nil =>
    intro a' b b' _ ha' h
    cases a' with
    | nil => simpa using h
    | cons y ys =>
      simp only [List.nil_append, List.cons_append, List.cons.injEq] at h
      exact absurd h.1.symm (ha' y (List.mem_cons_self y ys))
  | cons y ys ih =>
    intro a' b b' ha ha' h
    cases a' with
    | nil =>
      simp only [List.cons_append, List.nil_append, List.cons.injEq] at h
      exact absurd h.1 (ha y (List.mem_cons_self y ys))
    | cons z zs =>
      simp only [List.cons_append, List.cons.injEq] at h
      obtain ⟨rfl, htl⟩ := h
      have := ih zs b b' (fun c hc => ha c (List.mem_cons_of_mem _ hc))
        (fun c hc => ha' c (List.mem_cons_of_mem _ hc)) htl
      exact ⟨by rw [this.1], this.2⟩

theorem cpKey_data (c p : Nat) :
    (cpKey c p).data = toDecCore (c + 1) c [] ++ ':' :: toDecCore (p + 1) p [] := by
  have h2 : (":" : String).data = [':'] := rfl
  rw [cpKey, String.data_append, String.data_append, h2, numStr_data, numStr_data,
    List.append_assoc]
  rfl

theorem cpKey_inj {c p c' p' : Nat} (h : cpKey c p = cpKey c' p') : c = c' ∧ p = p' := by
  have hd := congrArg String.data h
  rw [cpKey_data, cpKey_data] at hd
  obtain ⟨h1, h2⟩ :=
    append_sep_inj _ _ _ _ (numStr_no_colon c) (numStr_no_colon c') hd
  constructor
  · have := decVal_toDecCore c
    rw [h1, decVal_toDecCore c'] at this
    exact this.symm
  · have := decVal_toDecCore p
    rw [h2, decVal_toDecCore p'] at this
    exact this.symm

/-! ### Lemmas about the `Map` model -/

section MapLemmas

variable {K V : Type} [BEq K] [LawfulBEq K]

theorem mapHas_iff (m : List (K × V)) (k : K) :
    mapHas m k = true ↔ ∃ e ∈ m, e.1 = k := by
  simp [mapHas, List.any_eq_true]

theorem find?_setmap_self (m : List (K × V)) (k : K) (v : V) (h : mapHas m k = true) :
    (m.map (fun e => if e.1 == k then (k, v) else e)).find? (fun e => e.1 == k)
      = some (k, v) := by
  induction m with
  | nil => simp [mapHas] at h
  | cons e es ih =>
    by_cases he : (e.1 == k) = true
    · simp [he]
    · have hes : mapHas es k = true := by
        have := (mapHas_iff (e :: es) k).mp h
        rcases this with ⟨x, hx, hxk⟩
        rcases List.mem_cons.mp hx with rfl | hx
        · exact absurd (beq_iff_eq.mpr hxk) he
        · exact (mapHas_iff es k).mpr ⟨x, hx, hxk⟩
      simpa [he] using ih hes

theorem find?_setmap_ne (m : List (K × V)) (k j : K) (v : V) (hjk : (k == j) = false) :
    (m.map (fun e => if e.1 == k then (k, v) else e)).find? (fun e => e.1 == j)
      = m.find? (fun e => e.1 == j) := by
  induction m with
  | nil => rfl
  | cons e es ih =>
    by_cases he : (e.1 == k) = true
    · have h1 : e.1 = k := eq_of_beq he
      have h2 : (e.1 == j) = false := by rw [h1]; exact hjk
      simp [he, h2, hjk, ih]
    · by_cases hj : (e.1 == j) = true
      · simp [he, hj]
      · simp [he, hj, ih]

theorem mapGet_mapSet_self (m : List (K × V)) (k : K) (v : V) :
    mapGet (mapSet m k v) k = some v := by
  by_cases h : mapHas m k
  · unfold mapGet mapSet
    rw [if_pos h, find?_setmap_self m k v h]
    rfl
  · unfold mapGet mapSet
    rw [if_neg h, List.find?_append]
    have h1 : m.find? (fun e => e.1 == k) = none := by
      rw [List.find?_eq_none]
      intro x hx hpx
      exact h ((mapHas_iff m k).mpr ⟨x, hx, eq_of_beq hpx⟩)
    simp [h1]

theorem mapGet_mapSet_ne (m : List (K × V)) (k j : K) (v : V) (hjk : j ≠ k) :
    mapGet (mapSet m k v) j = mapGet m j := by
  have hkj : (k == j) = false := by
    rcases hbe : (k == j) with _ | _
    · rfl
    · exact absurd (eq_of_beq hbe).symm hjk
  by_cases h : mapHas m k
  · unfold mapGet mapSet
    rw [if_pos h, find?_setmap_ne m k j v hkj]
  · unfold mapGet mapSet
    rw [if_neg h, List.find?_append]
    simp [hkj]

theorem keys_mapSet_of_has (m : List (K × V)) (k : K) (v : V) (h : mapHas m k = true) :
    (mapSet m k v).map Prod.fst = m.map Prod.fst := by
  unfold mapSet
  rw [if_pos h, List.map_map]
  apply List.map_congr_left
  intro e _
  by_cases he : (e.1 == k) = true
  · simp [he, eq_of_beq he]
  · simp [he]

omit [LawfulBEq K] in
theorem mem_mapSet (m : List (K × V)) (k : K) (v : V) (e : K × V)
    (h : e ∈ mapSet m k v) : e = (k, v) ∨ e ∈ m := by
  unfold mapSet at h
  by_cases hh : mapHas m k
  · rw [if_pos hh] at h
    rcases List.mem_map.mp h with ⟨a, ha, hae⟩
    by_cases hak : (a.1 == k) = true
    · rw [if_pos hak] at hae; exact Or.inl hae.symm
    · rw [if_neg hak] at hae; exact Or.inr (hae ▸ ha)
  · rw [if_neg hh] at h
    rcases List.mem_append.mp h with h | h
    · exact Or.inr h
    · exact Or.inl (by simpa using h)

end MapLemmas

/-! ### Well-formedness of the stats map

Reachable stores bind every stats record under its own `id`, with no
duplicate keys.  `getStoreStats` however scans the *values* for the first
record with the requested `userId`; the two lemmas below connect the two
views across `Map.set`. -/

/-- Each entry of the stats map is keyed by its record's `id`, and keys
are not duplicated. -/
def StatsWF (s : MemStorage) : Prop :=
  (s.stats.map Prod.fst).Nodup ∧ ∀ e ∈ s.stats, e.1 = e.2.id

theorem mapValues_cons {K V : Type} (x : K × V) (xs : List (K × V)) :
    mapValues (x :: xs) = x.2 :: mapValues xs := rfl

theorem find?_cons_pos {α : Type} (p : α → Bool) (a : α) (l : List α) (h : p a = true) :
    (a :: l).find? p = some a := by
  simp [List.find?, h]

theorem find?_cons_neg {α : Type} (p : α → Bool) (a : α) (l : List α) (h : p a = false) :
    (a :: l).find? p = l.find? p := by
  simp [List.find?, h]

theorem find?_values_mapSet_stats :
    ∀ (l : List (Nat × StoreStats)) (uid : Nat) (st v : StoreStats),
      (l.map Prod.fst).Nodup → (∀ e ∈ l, e.1 = e.2.id) →
      (mapValues l).find? (fun x => x.userId == uid) = some st →
      v.userId = uid →
      (mapValues (mapSet l st.id v)).find? (fun x => x.userId == uid) = some v := by
  intro l
  induction l with
  | nil => intro uid st v _ _ hfind _; simp [mapValues] at hfind
  | cons e es ih =>
    intro uid st v hnd hwf hfind hvu
    have hkey : e.1 = e.2.id := hwf e (List.mem_cons_self e es)
    by_cases hp : (e.2.userId == uid) = true
    · have hst : e.2 = st := by
        rw [mapValues_cons, find?_cons_pos (fun x => x.userId == uid) e.2 _ hp] at hfind
        exact Option.some.inj hfind
      have hkeyid : e.1 = st.id := by rw [hkey, hst]
      have hhas : mapHas (e :: es) st.id = true :=
        (mapHas_iff _ _).mpr ⟨e, List.mem_cons_self e es, hkeyid⟩
      have hfe : (if e.1 == st.id then (st.id, v) else e) = (st.id, v) := by
        simp [hkeyid]
      unfold mapSet
      rw [if_pos hhas, List.map_cons, hfe, mapValues_cons,
        find?_cons_pos (fun x => x.userId == uid) v _ (by simpa using hvu)]
    · have hfind' : (mapValues es).find? (fun x => x.userId == uid) = some st := by
        rw [mapValues_cons,
          find?_cons_neg (fun x => x.userId == uid) e.2 _ (by simpa using hp)] at hfind
        exact hfind
      have hmem : st ∈ mapValues es := List.mem_of_find?_eq_some hfind'
      rcases List.mem_map.mp hmem with ⟨e', he', he'st⟩
      have he'key : e'.1 = st.id := by rw [hwf e' (List.mem_cons_of_mem e he'), he'st]
      have hkne : e.1 ≠ st.id := by
        intro heq
        have : e.1 ∈ es.map Prod.fst := by
          rw [heq, ← he'key]
          exact List.mem_map_of_mem Prod.fst he'
        exact (List.nodup_cons.mp hnd).1 this
      have hhases : mapHas es st.id = true :=
        (mapHas_iff _ _).mpr ⟨e', he', he'key⟩
      have hhas : mapHas (e :: es) st.id = true := by
        unfold mapHas at hhases ⊢
        simp [List.any_cons, hhases]
      have hfe : (if e.1 == st.id then (st.id, v) else e) = e := by
        simp [hkne]
      have ihr := ih uid st v (List.nodup_cons.mp hnd).2
        (fun x hx => hwf x (List.mem_cons_of_mem e hx)) hfind' hvu
      unfold mapSet at ihr ⊢
      rw [if_pos hhases] at ihr
      rw [if_pos hhas, List.map_cons, hfe, mapValues_cons,
        find?_cons_neg (fun x => x.userId == uid) e.2 _ (by simpa using hp)]
      exact ihr

/-- `getStoreStats` finds a record exactly for the requested user. -/
theorem getStoreStats_userId {s : MemStorage} {uid : Nat} {st : StoreStats}
    (h : getStoreStats s uid = some st) : st.userId = uid := by
  unfold getStoreStats at h
  have := List.find?_some h
  exact beq_iff_eq.mp this

theorem applyStatsPatch_id (st : StoreStats) (p : StatsPatch) :
    (applyStatsPatch st p).id = st.id := rfl

theorem applyStatsPatch_userId (st : StoreStats) (p : StatsPatch) :
    (applyStatsPatch st p).userId = st.userId := rfl

/-- Effect of `updateStoreStats` when a record for `uid` already exists:
the record is patched in place, everything else is untouched, and
well-formedness is preserved. -/
theorem updateStoreStats_existing (s : MemStorage) (uid : Nat) (patch : StatsPatch)
    (now : Nat) (st : StoreStats)
    (hwf : StatsWF s) (h0 : getStoreStats s uid = some st) :
    getStoreStats (updateStoreStats s uid patch now).2 uid
        = some { applyStatsPatch st patch with updatedAt := now } ∧
      StatsWF (updateStoreStats s uid patch now).2 ∧
      (updateStoreStats s uid patch now).1
        = { applyStatsPatch st patch with updatedAt := now } := by
  obtain ⟨hnd, hkeys⟩ := hwf
  have huid : st.userId = uid := getStoreStats_userId h0
  have hstate : (updateStoreStats s uid patch now).2
      = { s with stats := mapSet s.stats st.id { applyStatsPatch st patch with updatedAt := now } } := by
    simp only [updateStoreStats, h0, applyStatsPatch_id]
  have hval : (updateStoreStats s uid patch now).1
      = { applyStatsPatch st patch with updatedAt := now } := by
    simp only [updateStoreStats, h0]
  refine ⟨?_, ?_, hval⟩
  · rw [hstate]
    unfold getStoreStats
    exact find?_values_mapSet_stats s.stats uid st _ hnd hkeys h0 (by simp [applyStatsPatch_userId, huid])
  · rw [hstate]
    constructor
    · show ((mapSet s.stats st.id _).map Prod.fst).Nodup
      have hhas : mapHas s.stats st.id = true := by
        unfold getStoreStats at h0
        have hmem := List.mem_of_find?_eq_some h0
        rcases List.mem_map.mp hmem with ⟨e, he, hest⟩
        exact (mapHas_iff _ _).mpr ⟨e, he, by rw [hkeys e he, hest]⟩
      rw [keys_mapSet_of_has s.stats st.id _ hhas]
      exact hnd
    · intro e he
      rcases mem_mapSet s.stats st.id _ e he with rfl | he'
      · rfl
      · exact hkeys e he'

theorem getStoreStats_eq_of_stats_eq {s t : MemStorage} (h : s.stats = t.stats)
    (uid : Nat) : getStoreStats s uid = getStoreStats t uid := by
  unfold getStoreStats
  rw [h]

/-- `updateStoreStats` touches only the stats map and the stats counter:
the order items map is untouched. -/
theorem updateStoreStats_orderItems (s : MemStorage) (uid : Nat) (p : StatsPatch)
    (now : Nat) : (updateStoreStats s uid p now).2.orderItems = s.orderItems := by
  unfold updateStoreStats
  cases hg : getStoreStats s uid <;> simp [hg]

/-- `updateStoreStats` leaves the order-item counter untouched. -/
theorem updateStoreStats_orderItemId (s : MemStorage) (uid : Nat) (p : StatsPatch)
    (now : Nat) : (updateStoreStats s uid p now).2.orderItemId = s.orderItemId := by
  unfold updateStoreStats
  cases hg : getStoreStats s uid <;> simp [hg]

/-! ### Concrete stores used to exercise the code on failing inputs -/

/-- A zeroed stats record (what the lazy-creation branch would build). -/
def mkZeroStats (id uid : Nat) : StoreStats where
  id := id
  userId := uid
  totalRevenue := 0
  totalOrders := 0
  cataloguesShared := 0
  totalProducts := 0
  revenueChange := 0
  ordersChange := 0
  sharesChange := 0
  productsChange := 0
  pendingOrders := 0
  processingOrders := 0
  completedOrders := 0
  cancelledOrders := 0
  updatedAt := 0

/-- An order-creation payload that (illegitimately, per the spec) carries
`status: "shipped"`.  The zod insert schema does not strip `status`, so
this payload reaches `createOrder` as-is. -/
def shippedInsertOrder : InsertOrder where
  orderNumber := "ORD-1234"
  customerName := "Alice"
  customerEmail := none
  customerPhone := none
  totalAmount := 10
  status := some OrderStatus.shipped
  userId := 1

/-- A store holding only a zeroed stats record for user 1. -/
def statsOnlyStore : MemStorage :=
  { emptyStorage with stats := [(1, mkZeroStats 1 1)], statsId := 2 }

/-- Claim C1: the spec requires `createOrder` to force `status = "pending"`,
ignoring a caller-supplied status.  The code spreads the payload verbatim:
with a supplied `"shipped"` status the stored and returned order is
`"shipped"`, not `"pending"` — while the stats update still counts the new
order as pending.  This theorem evaluates the code on that failing input. -/
theorem createOrder_keeps_caller_status :
    ((createOrder statsOnlyStore shippedInsertOrder [] 0).1).status
        = some OrderStatus.shipped ∧
    ((createOrder statsOnlyStore shippedInsertOrder [] 0).1).status
        ≠ some OrderStatus.pending ∧
    (getOrder (createOrder statsOnlyStore shippedInsertOrder [] 0).2 1).map
        (fun o => o.status) = some (some OrderStatus.shipped) ∧
    (getStoreStats (createOrder statsOnlyStore shippedInsertOrder [] 0).2 1).map
        (fun st => st.pendingOrders) = some 1 := by
  decide

/-- A store with one `"shipped"` order for user 1 whose stats record says
`completedOrders = 5`. -/
def shippedOrderStore : MemStorage :=
  { emptyStorage with
      orders :=
        [(1,
          { id := 1
            orderNumber := "ORD-1111"
            customerName := "Bob"
            customerEmail := none
            customerPhone := none
            totalAmount := 10
            status := some OrderStatus.shipped
            userId := 1
            createdAt := 0
            updatedAt := 0 })]
      orderId := 2
      stats := [(1, { mkZeroStats 1 1 with completedOrders := 5 })]
      statsId := 2 }

/-- A store with one `"pending"` order for user 1 whose stats record says
`pendingOrders = 1` (all other buckets zero). -/
def pendingOrderStore : MemStorage :=
  { emptyStorage with
      orders :=
        [(1,
          { id := 1
            orderNumber := "ORD-2222"
            customerName := "Carol"
            customerEmail := none
            customerPhone := none
            totalAmount := 10
            status := some OrderStatus.pending
            userId := 1
            createdAt := 0
            updatedAt := 0 })]
      orderId := 2
      stats := [(1, { mkZeroStats 1 1 with pendingOrders := 1 })]
      statsId := 2 }

/-- The state after driving the pending order through
`processing → shipped → delivered`. -/
def threeStepStore : MemStorage :=
  (updateOrderStatus
    (updateOrderStatus
      (updateOrderStatus pendingOrderStore 1 OrderStatus.processing 1).2
      1 OrderStatus.shipped 2).2
    1 OrderStatus.delivered 3).2

/-- Claim C2: the spec says a `"shipped" → "delivered"` transition leaves
`completedOrders` unchanged (decrement and increment of the shared bucket
cancel), and that the pending → processing → shipped → delivered sequence
nets `completedOrders + 1`.  In the code both branches write the same
field of one `statsUpdate` object, so the increment overwrites the
decrement: `shipped → delivered` nets `+1` (5 becomes 6, not 5), and the
three-step sequence nets `+2` (0 becomes 2, not 1).  This theorem
evaluates the code on those failing inputs. -/
theorem updateOrderStatus_same_bucket_overwrite :
    (getStoreStats (updateOrderStatus shippedOrderStore 1 OrderStatus.delivered 1).2 1).map
        (fun st => st.completedOrders) = some 6 ∧
    (getStoreStats threeStepStore 1).map (fun st => st.pendingOrders) = some 0 ∧
    (getStoreStats threeStepStore 1).map (fun st => st.processingOrders) = some 0 ∧
    (getStoreStats threeStepStore 1).map (fun st => st.completedOrders) = some 2 := by
  decide

/-- Claim C3 (counterexample): for a fresh `userId` with no stats record,
`createOrder` performs no stats update at all — `if (stats)` fails — so
no record is lazily created: after one order for user 1 on an empty
store, `getStoreStats` still returns nothing (the claim requires a record
with `totalOrders = 1`). -/
theorem createOrder_fresh_user_no_stats_record :
    getStoreStats (createOrder emptyStorage shippedInsertOrder [] 0).2 1 = none ∧
    (createOrder emptyStorage shippedInsertOrder [] 0).2.stats = [] := by
  decide

/-- Effect of one `createOrder` on an existing stats record: the four
order fields are bumped, well-formedness is preserved. -/
theorem createOrder_stats_step (s : MemStorage) (io : InsertOrder)
    (items : List InsertOrderItem) (now : Nat) (st : StoreStats)
    (hwf : StatsWF s) (h0 : getStoreStats s io.userId = some st) :
    ∃ st1, getStoreStats (createOrder s io items now).2 io.userId = some st1 ∧
      st1.totalOrders = st.totalOrders + 1 ∧
      st1.totalRevenue = st.totalRevenue + io.totalAmount ∧
      st1.pendingOrders = st.pendingOrders + 1 ∧
      StatsWF (createOrder s io items now).2 := by
  have hs1 :
      getStoreStats
        { s with
            orders := mapSet s.orders s.orderId
              { id := s.orderId
                orderNumber := io.orderNumber
                customerName := io.customerName
                customerEmail := io.customerEmail
                customerPhone := io.customerPhone
                totalAmount := io.totalAmount
                status := io.status
                userId := io.userId
                createdAt := now
                updatedAt := now }
            orderItems := mapSet s.orderItems s.orderId
              (items.map (fun item =>
                { id := s.orderId
                  orderId := s.orderId
                  productId := item.productId
                  quantity := item.quantity
                  price := item.price }))
            orderId := s.orderId + 1
            orderItemId := s.orderItemId + items.length } io.userId
        = some st := h0
  have hwf1 : StatsWF
      { s with
          orders := mapSet s.orders s.orderId
            { id := s.orderId
              orderNumber := io.orderNumber
              customerName := io.customerName
              customerEmail := io.customerEmail
              customerPhone := io.customerPhone
              totalAmount := io.totalAmount
              status := io.status
              userId := io.userId
              createdAt := now
              updatedAt := now }
          orderItems := mapSet s.orderItems s.orderId
            (items.map (fun item =>
              { id := s.orderId
                orderId := s.orderId
                productId := item.productId
                quantity := item.quantity
                price := item.price }))
          orderId := s.orderId + 1
          orderItemId := s.orderItemId + items.length } := hwf
  have hupd := updateStoreStats_existing _ io.userId
    { StatsPatch.empty with
        totalOrders := some (st.totalOrders + 1)
        ordersChange := some (st.ordersChange + 1)
        totalRevenue := some (st.totalRevenue + io.totalAmount)
        pendingOrders := some (st.pendingOrders + 1) } now st hwf1 hs1
  refine ⟨{ applyStatsPatch st
      { StatsPatch.empty with
          totalOrders := some (st.totalOrders + 1)
          ordersChange := some (st.ordersChange + 1)
          totalRevenue := some (st.totalRevenue + io.totalAmount)
          pendingOrders := some (st.pendingOrders + 1) } with updatedAt := now },
    ?_, rfl, rfl, rfl, ?_⟩
  · show getStoreStats (createOrder s io items now).2 io.userId = _
    simp only [createOrder, hs1]
    exact hupd.1
  · simp only [createOrder, hs1]
    exact hupd.2.1

/-- Replays a list of `(order, items, now)` payloads through `createOrder`. -/
def runCreateOrders : MemStorage → List (InsertOrder × List InsertOrderItem × Nat) → MemStorage
  | s, [] => s
  | s, call :: rest => runCreateOrders (createOrder s call.1 call.2.1 call.2.2).2 rest

theorem runCreateOrders_stats (uid : Nat) :
    ∀ (calls : List (InsertOrder × List InsertOrderItem × Nat)) (s : MemStorage)
      (st : StoreStats), StatsWF s → (∀ call ∈ calls, call.1.userId = uid) →
      getStoreStats s uid = some st →
      ∃ st1, getStoreStats (runCreateOrders s calls) uid = some st1 ∧
        st1.totalOrders = st.totalOrders + calls.length ∧
        st1.totalRevenue
          = st.totalRevenue + (calls.map (fun call => call.1.totalAmount)).sum ∧
        st1.pendingOrders = st.pendingOrders + calls.length := by
  intro calls
  induction calls with
  | nil =>
    intro s st hwf _ h0
    exact ⟨st, h0, by simp, by simp, by simp⟩
  | cons call rest ih =>
    intro s st hwf hcalls h0
    have huid : call.1.userId = uid := hcalls call (List.mem_cons_self call rest)
    have h0' : getStoreStats s call.1.userId = some st := by rw [huid]; exact h0
    obtain ⟨st', hget', ht', hr', hp', hwf'⟩ :=
      createOrder_stats_step s call.1 call.2.1 call.2.2 st hwf h0'
    have hget'' : getStoreStats (createOrder s call.1 call.2.1 call.2.2).2 uid = some st' := by
      rw [← huid]; exact hget'
    obtain ⟨st1, hget1, ht1, hr1, hp1⟩ := ih (createOrder s call.1 call.2.1 call.2.2).2 st'
      hwf' (fun x hx => hcalls x (List.mem_cons_of_mem call hx)) hget''
    refine ⟨st1, hget1, ?_, ?_, ?_⟩
    · rw [ht1, ht']
      simp only [List.length_cons]
      push_cast
      ring
    · rw [hr1, hr']
      simp only [List.map_cons, List.sum_cons]
      ring
    · rw [hp1, hp']
      simp only [List.length_cons]
      push_cast
      ring

/-- Claim C3 (amended): `createOrder` bumps the stats only when a stats
record for the payload's `userId` already exists (no lazy creation on
this path).  Starting from an existing record with zeroed order counters,
N `createOrder` calls with total amounts `a1..aN` leave
`totalOrders = N`, `totalRevenue = a1+...+aN` and `pendingOrders = N`. -/
theorem createOrder_stats_additivity (s : MemStorage) (uid : Nat)
    (calls : List (InsertOrder × List InsertOrderItem × Nat)) (st : StoreStats)
    (hwf : StatsWF s) (hcalls : ∀ call ∈ calls, call.1.userId = uid)
    (h0 : getStoreStats s uid = some st)
    (ht : st.totalOrders = 0) (hr : st.totalRevenue = 0) (hp : st.pendingOrders = 0) :
    ∃ st1, getStoreStats (runCreateOrders s calls) uid = some st1 ∧
      st1.totalOrders = calls.length ∧
      st1.totalRevenue = (calls.map (fun call => call.1.totalAmount)).sum ∧
      st1.pendingOrders = calls.length := by
  obtain ⟨st1, hget, h1, h2, h3⟩ := runCreateOrders_stats uid calls s st hwf hcalls h0
  exact ⟨st1, hget, by rw [h1, ht]; ring, by rw [h2, hr]; ring, by rw [h3, hp]; ring⟩

/-- Two order payloads for user 1 with amounts 3 and 4. -/
def twoCalls : List (InsertOrder × List InsertOrderItem × Nat) :=
  [({ orderNumber := "ORD-0003", customerName := "Dan", customerEmail := none,
      customerPhone := none, totalAmount := 3, status := none, userId := 1 }, [], 0),
   ({ orderNumber := "ORD-0004", customerName := "Eve", customerEmail := none,
      customerPhone := none, totalAmount := 4, status := none, userId := 1 }, [], 0)]

theorem createOrder_stats_additivity_witness :
    ∃ st1, getStoreStats (runCreateOrders statsOnlyStore twoCalls) 1 = some st1 ∧
      st1.totalOrders = twoCalls.length ∧
      st1.totalRevenue = (twoCalls.map (fun call => call.1.totalAmount)).sum ∧
      st1.pendingOrders = twoCalls.length :=
  createOrder_stats_additivity statsOnlyStore 1 twoCalls (mkZeroStats 1 1)
    (by constructor <;> decide) (by decide) (by decide) (by decide) (by decide) (by decide)

/-- Claim C5: `deleteCatalogue` removes every join row referencing the
catalogue, so no association row with that `catalogueId` remains and
`getProductsInCatalogue` on the deleted id returns the empty list. -/
theorem deleteCatalogue_cascades_join_rows (s : MemStorage) (id : Nat) :
    (∀ e ∈ ((deleteCatalogue s id).2).catalogueProducts, e.2.catalogueId ≠ id) ∧
    getProductsInCatalogue (deleteCatalogue s id).2 id = [] := by
  have hrows : ∀ e ∈ ((deleteCatalogue s id).2).catalogueProducts, e.2.catalogueId ≠ id := by
    intro e he heq
    have he' : e ∈ s.catalogueProducts.filter (fun e => !(e.2.catalogueId == id)) := he
    have hp := List.of_mem_filter he'
    simp [heq] at hp
  refine ⟨hrows, ?_⟩
  unfold getProductsInCatalogue
  have hids : ((mapValues ((deleteCatalogue s id).2).catalogueProducts).filter
      (fun cp => cp.catalogueId == id)) = [] := by
    rw [List.filter_eq_nil_iff]
    intro a ha
    rcases List.mem_map.mp ha with ⟨e, he, rfl⟩
    simpa using hrows e he
  rw [hids]
  simp

/-- Claim C6: updating the settings of a missing user is the one hard
failure (`throw`), while updating a missing product, category, catalogue
or order returns absence. -/
theorem update_missing_target_asymmetry (s : MemStorage) (uid pid cid katid oid : Nat)
    (settings : SettingsPatch) (pp : ProductPatch) (pc : CategoryPatch)
    (pk : CataloguePatch) (st : OrderStatus) (now : Nat) :
    (getUser s uid = none →
      updateStoreSettings s uid settings
        = .error ("User with ID " ++ numStr uid ++ " not found")) ∧
    (getProduct s pid = none → (updateProduct s pid pp).1 = none) ∧
    (getCategory s cid = none → (updateCategory s cid pc).1 = none) ∧
    (getCatalogue s katid = none → (updateCatalogue s katid pk).1 = none) ∧
    (getOrder s oid = none → (updateOrderStatus s oid st now).1 = none) := by
  refine ⟨?_, ?_, ?_, ?_, ?_⟩ <;> intro h
  · simp [updateStoreSettings, h]
  · simp [updateProduct, h]
  · simp [updateCategory, h]
  · simp [updateCatalogue, h]
  · simp [updateOrderStatus, h]

theorem update_missing_target_asymmetry_witness :
    updateStoreSettings emptyStorage 1 ⟨none, none, none, none, none⟩
        = .error ("User with ID " ++ numStr 1 ++ " not found") ∧
    (updateProduct emptyStorage 1
        ⟨none, none, none, none, none, none, none, none, none⟩).1 = none ∧
    (updateCategory emptyStorage 1 ⟨none, none, none⟩).1 = none ∧
    (updateCatalogue emptyStorage 1 ⟨none, none, none, none, none⟩).1 = none ∧
    (updateOrderStatus emptyStorage 1 OrderStatus.pending 0).1 = none := by
  have h := update_missing_target_asymmetry emptyStorage 1 1 1 1 1
    ⟨none, none, none, none, none⟩ ⟨none, none, none, none, none, none, none, none, none⟩
    ⟨none, none, none⟩ ⟨none, none, none, none, none⟩ OrderStatus.pending 0
  exact ⟨h.1 rfl, h.2.1 rfl, h.2.2.1 rfl, h.2.2.2.1 rfl, h.2.2.2.2 rfl⟩

/-- `incrementCatalogueViewCount` iterated `k` times. -/
def iterateIncView (s : MemStorage) (id : Nat) : Nat → MemStorage
  | 0 => s
  | k + 1 => iterateIncView (incrementCatalogueViewCount s id) id k

theorem incView_step (s : MemStorage) (id : Nat) (c : Catalogue)
    (hc : getCatalogue s id = some c) :
    getCatalogue (incrementCatalogueViewCount s id) id
        = some { c with viewCount := c.viewCount + 1 } ∧
    (∀ j, j ≠ id → getCatalogue (incrementCatalogueViewCount s id) j = getCatalogue s j) ∧
    (incrementCatalogueViewCount s id).stats = s.stats := by
  refine ⟨?_, ?_, ?_⟩
  · simp only [incrementCatalogueViewCount, hc]
    exact mapGet_mapSet_self s.catalogues id _
  · intro j hj
    simp only [incrementCatalogueViewCount, hc]
    exact mapGet_mapSet_ne s.catalogues id j _ hj
  · simp only [incrementCatalogueViewCount, hc]

/-- Claim C9: on an existing catalogue, `k` repeated view increments add
exactly `k` to its `viewCount` and nothing else: the rest of the record,
every other catalogue, and the stats map are unchanged. -/
theorem incrementCatalogueViewCount_adds_exactly_k (s : MemStorage) (id k : Nat)
    (c : Catalogue) (hc : getCatalogue s id = some c) :
    getCatalogue (iterateIncView s id k) id = some { c with viewCount := c.viewCount + k } ∧
    (∀ j, j ≠ id → getCatalogue (iterateIncView s id k) j = getCatalogue s j) ∧
    (iterateIncView s id k).stats = s.stats := by
  induction k generalizing s c with
  | zero =>
    refine ⟨?_, fun j _ => rfl, rfl⟩
    simpa using hc
  | succ k ih =>
    obtain ⟨h1, h2, h3⟩ := incView_step s id c hc
    obtain ⟨ih1, ih2, ih3⟩ :=
      ih (incrementCatalogueViewCount s id) { c with viewCount := c.viewCount + 1 } h1
    refine ⟨?_, ?_, ?_⟩
    · show getCatalogue (iterateIncView (incrementCatalogueViewCount s id) id k) id = _
      rw [ih1]
      show some ({ c with viewCount := c.viewCount + 1 + k } : Catalogue) = _
      rw [show c.viewCount + 1 + k = c.viewCount + (k + 1) by omega]
    · intro j hj
      show getCatalogue (iterateIncView (incrementCatalogueViewCount s id) id k) j = _
      rw [ih2 j hj, h2 j hj]
    · show (iterateIncView (incrementCatalogueViewCount s id) id k).stats = _
      rw [ih3, h3]

/-- A store with a single catalogue (id 1, viewCount 5) for user 1. -/
def singleCatalogueStore : MemStorage :=
  { emptyStorage with
      catalogues :=
        [(1,
          { id := 1
            name := "Summer"
            description := none
            imageUrl := none
            userId := 1
            isPublic := some true
            viewCount := 5
            shareCount := 0
            createdAt := 0 })]
      catalogueId := 2 }

theorem incrementCatalogueViewCount_adds_exactly_k_witness :
    getCatalogue (iterateIncView singleCatalogueStore 1 3) 1
        = some { id := 1, name := "Summer", description := none, imageUrl := none,
                 userId := 1, isPublic := some true, viewCount := 8, shareCount := 0,
                 createdAt := 0 } ∧
    getCatalogue (iterateIncView singleCatalogueStore 1 3) 2
        = getCatalogue singleCatalogueStore 2 ∧
    (iterateIncView singleCatalogueStore 1 3).stats = singleCatalogueStore.stats := by
  have h := incrementCatalogueViewCount_adds_exactly_k singleCatalogueStore 1 3
    { id := 1, name := "Summer", description := none, imageUrl := none, userId := 1,
      isPublic := some true, viewCount := 5, shareCount := 0, createdAt := 0 } (by decide)
  exact ⟨h.1, h.2.1 2 (by decide), h.2.2⟩

/-- Claim C10: `createOrder` stores, under the new order's id, one
`OrderItem` per requested item whose `id` *and* `orderId` both equal the
parent order's id (the loop's `id` shadows the per-item counter value),
while the `orderItemId` counter is advanced once per item without any of
its values being assigned to a stored item. -/
theorem createOrder_items_share_order_id (s : MemStorage) (io : InsertOrder)
    (items : List InsertOrderItem) (now : Nat) :
    (createOrder s io items now).1.id = s.orderId ∧
    mapGet ((createOrder s io items now).2).orderItems s.orderId
      = some (items.map (fun item =>
          ({ id := s.orderId
             orderId := s.orderId
             productId := item.productId
             quantity := item.quantity
             price := item.price } : OrderItem))) ∧
    ((createOrder s io items now).2).orderItemId = s.orderItemId + items.length := by
  simp only [createOrder]
  split
  · exact ⟨rfl, mapGet_mapSet_self _ _ _, rfl⟩
  · refine ⟨rfl, ?_, ?_⟩
    · rw [updateStoreStats_orderItems]
      exact mapGet_mapSet_self _ _ _
    · rw [updateStoreStats_orderItemId]

/-- Deleting by key equals filtering the values by `id`, when every entry
is keyed by its record's `id`. -/
theorem mapValues_mapDelete_products (l : List (Nat × Product)) (pid : Nat)
    (hwf : ∀ e ∈ l, e.1 = e.2.id) :
    mapValues (mapDelete l pid) = (mapValues l).filter (fun q => !(q.id == pid)) := by
  induction l with
  | nil => rfl
  | cons e es ih =>
    have hk : e.1 = e.2.id := hwf e (List.mem_cons_self e es)
    have ih' := ih (fun x hx => hwf x (List.mem_cons_of_mem e hx))
    unfold mapDelete at ih' ⊢
    by_cases hp : (e.2.id == pid) = true
    · have hkp : (e.1 == pid) = true := by rw [hk]; exact hp
      simp only [List.filter_cons, mapValues_cons, hkp, hp, Bool.not_true, if_neg,
        Bool.false_eq_true, not_false_eq_true, ite_false]
      exact ih'
    · have hp' : (e.2.id == pid) = false := Bool.eq_false_iff.mpr hp
      have hkp : (e.1 == pid) = false := by rw [hk]; exact hp'
      simp only [List.filter_cons, mapValues_cons, hkp, hp', Bool.not_false, if_pos, ite_true]
      rw [ih']

/-- Claim C8: `deleteProduct` is a bare `Map.delete` — the join rows that
reference the product stay in the join table — and listing a catalogue's
products afterwards simply skips the dangling id: the result is the
previous product list with the deleted product's rows filtered out (no
failure). -/
theorem deleteProduct_keeps_join_rows_skip_missing (s : MemStorage) (pid cid : Nat)
    (hwf : ∀ e ∈ s.products, e.1 = e.2.id) :
    ((deleteProduct s pid).2).catalogueProducts = s.catalogueProducts ∧
    getProductsInCatalogue (deleteProduct s pid).2 cid
      = (getProductsInCatalogue s cid).filter (fun q => !(q.id == pid)) := by
  refine ⟨rfl, ?_⟩
  have hcp : ((deleteProduct s pid).2).catalogueProducts = s.catalogueProducts := rfl
  have hpr : ((deleteProduct s pid).2).products = mapDelete s.products pid := rfl
  unfold getProductsInCatalogue
  rw [hcp, hpr, mapValues_mapDelete_products s.products pid hwf, List.filter_filter,
    List.filter_filter]
  exact List.filter_congr (fun a _ => by rw [Bool.and_comm])

/-- A store with one product (id 2) joined into catalogues 1 and 7. -/
def joinedStore : MemStorage :=
  { emptyStorage with
      products :=
        [(2,
          { id := 2
            name := "Widget"
            description := none
            sku := "W-1"
            price := 5
            stock := 3
            stockStatus := StockStatus.in_stock
            imageUrl := none
            categoryId := 1
            userId := 1
            createdAt := 0 })]
      productId := 3
      catalogueProducts := [(cpKey 1 2, ⟨1, 2⟩), (cpKey 7 2, ⟨7, 2⟩)]
      catalogueProductId := 3 }

theorem deleteProduct_keeps_join_rows_skip_missing_witness :
    ((deleteProduct joinedStore 2).2).catalogueProducts = joinedStore.catalogueProducts ∧
    getProductsInCatalogue (deleteProduct joinedStore 2).2 1
      = (getProductsInCatalogue joinedStore 1).filter (fun q => !(q.id == 2)) :=
  deleteProduct_keeps_join_rows_skip_missing joinedStore 2 1 (by decide)

/-! ### Claim C4: idempotent catalogue-product association -/

/-- Join-table well-formedness: every row is keyed by the composite key of
its own pair, and keys are not duplicated.  Both hold in every reachable
store because `addProductToCatalogue` is the only writer. -/
def CPWF (s : MemStorage) : Prop :=
  (s.catalogueProducts.map Prod.fst).Nodup ∧
  ∀ e ∈ s.catalogueProducts, e.1 = cpKey e.2.catalogueId e.2.productId

/-- Product-map well-formedness: entries keyed by their product's `id`,
keys not duplicated. -/
def ProductsWF (s : MemStorage) : Prop :=
  (s.products.map Prod.fst).Nodup ∧ ∀ e ∈ s.products, e.1 = e.2.id

theorem mapGet_some_mapHas {K V : Type} [BEq K] (m : List (K × V)) (k : K) (v : V)
    (h : mapGet m k = some v) : mapHas m k = true := by
  unfold mapGet at h
  cases hf : m.find? (fun e => e.1 == k) with
  | none => rw [hf] at h; simp at h
  | some e =>
    have hm := List.mem_of_find?_eq_some hf
    have hp := List.find?_some hf
    unfold mapHas
    rw [List.any_eq_true]
    exact ⟨e, hm, hp⟩

theorem countP_cp_values_eq_one (c p : Nat) :
    ∀ l : List (String × CatalogueProduct),
      (l.map Prod.fst).Nodup → (∀ e ∈ l, e.1 = cpKey e.2.catalogueId e.2.productId) →
      mapHas l (cpKey c p) = true →
      (mapValues l).countP (fun e => e.catalogueId == c && e.productId == p) = 1 := by
  intro l
  induction l with
  | nil => intro _ _ h; simp [mapHas] at h
  | cons e es ih =>
    intro hnd hwf hhas
    have hk := hwf e (List.mem_cons_self e es)
    have hpred : ∀ x ∈ (e :: es),
        ((x.2.catalogueId == c && x.2.productId == p) = true ↔ x.1 = cpKey c p) := by
      intro x hx
      have hkx := hwf x hx
      constructor
      · intro hp
        rw [Bool.and_eq_true, beq_iff_eq, beq_iff_eq] at hp
        rw [hkx, hp.1, hp.2]
      · intro hkey
        obtain ⟨h1, h2⟩ := cpKey_inj (hkx.symm.trans hkey)
        rw [Bool.and_eq_true, beq_iff_eq, beq_iff_eq]
        exact ⟨h1, h2⟩
    rw [mapValues_cons, List.countP_cons]
    by_cases hek : e.1 = cpKey c p
    · have hpe := (hpred e (List.mem_cons_self e es)).mpr hek
      rw [if_pos hpe]
      have hz : (mapValues es).countP (fun x => x.catalogueId == c && x.productId == p) = 0 := by
        rw [List.countP_eq_zero]
        intro a ha hpa
        rcases List.mem_map.mp ha with ⟨x, hx, rfl⟩
        have hxk := (hpred x (List.mem_cons_of_mem e hx)).mp hpa
        have : e.1 ∈ es.map Prod.fst := by
          rw [hek, ← hxk]
          exact List.mem_map_of_mem Prod.fst hx
        exact (List.nodup_cons.mp hnd).1 this
      rw [hz]
    · have hpe : (e.2.catalogueId == c && e.2.productId == p) = false :=
        Bool.eq_false_iff.mpr (fun h => hek ((hpred e (List.mem_cons_self e es)).mp h))
      rw [hpe]
      simp only [Bool.false_eq_true, if_false, Nat.add_zero]
      have hhases : mapHas es (cpKey c p) = true := by
        unfold mapHas at hhas ⊢
        rw [List.any_cons] at hhas
        have hef : (e.1 == cpKey c p) = false :=
          Bool.eq_false_iff.mpr (fun h => hek (eq_of_beq h))
        rw [hef] at hhas
        simpa using hhas
      exact ih (List.nodup_cons.mp hnd).2 (fun x hx => hwf x (List.mem_cons_of_mem e hx)) hhases

theorem countP_id_values_eq_one (pid : Nat) :
    ∀ l : List (Nat × Product),
      (l.map Prod.fst).Nodup → (∀ e ∈ l, e.1 = e.2.id) →
      mapHas l pid = true →
      (mapValues l).countP (fun q => q.id == pid) = 1 := by
  intro l
  induction l with
  | nil => intro _ _ h; simp [mapHas] at h
  | cons e es ih =>
    intro hnd hwf hhas
    have hk := hwf e (List.mem_cons_self e es)
    rw [mapValues_cons, List.countP_cons]
    by_cases hek : e.1 = pid
    · have hpe : (e.2.id == pid) = true := beq_iff_eq.mpr (by rw [← hk, hek])
      rw [if_pos hpe]
      have hz : (mapValues es).countP (fun q => q.id == pid) = 0 := by
        rw [List.countP_eq_zero]
        intro a ha hpa
        rcases List.mem_map.mp ha with ⟨x, hx, rfl⟩
        have hxk : x.1 = pid := by rw [hwf x (List.mem_cons_of_mem e hx)]; exact beq_iff_eq.mp hpa
        have : e.1 ∈ es.map Prod.fst := by
          rw [hek, ← hxk]
          exact List.mem_map_of_mem Prod.fst hx
        exact (List.nodup_cons.mp hnd).1 this
      rw [hz]
    · have hpe : (e.2.id == pid) = false :=
        Bool.eq_false_iff.mpr (fun h => hek (by rw [hk]; exact beq_iff_eq.mp h))
      rw [hpe]
      simp only [Bool.false_eq_true, if_false, Nat.add_zero]
      have hhases : mapHas es pid = true := by
        unfold mapHas at hhas ⊢
        rw [List.any_cons] at hhas
        have hef : (e.1 == pid) = false := Bool.eq_false_iff.mpr (fun h => hek (eq_of_beq h))
        rw [hef] at hhas
        simpa using hhas
      exact ih (List.nodup_cons.mp hnd).2 (fun x hx => hwf x (List.mem_cons_of_mem e hx)) hhases

theorem addProductToCatalogue_products (s : MemStorage) (c p : Nat) :
    (addProductToCatalogue s c p).products = s.products := by
  simp only [addProductToCatalogue]
  split <;> rfl

theorem mapHas_add_self (s : MemStorage) (c p : Nat) :
    mapHas (addProductToCatalogue s c p).catalogueProducts (cpKey c p) = true := by
  unfold addProductToCatalogue
  by_cases hh : mapHas s.catalogueProducts (cpKey c p)
  · rw [if_pos hh]
    exact hh
  · rw [if_neg hh]
    show mapHas (mapSet s.catalogueProducts (cpKey c p) ⟨c, p⟩) (cpKey c p) = true
    unfold mapSet
    rw [if_neg hh]
    unfold mapHas
    simp [List.any_append]

theorem CPWF_add (s : MemStorage) (c p : Nat) (h : CPWF s) :
    CPWF (addProductToCatalogue s c p) := by
  unfold addProductToCatalogue
  by_cases hh : mapHas s.catalogueProducts (cpKey c p)
  · rw [if_pos hh]
    exact h
  · rw [if_neg hh]
    have hset : mapSet s.catalogueProducts (cpKey c p) ⟨c, p⟩
        = s.catalogueProducts ++ [(cpKey c p, ⟨c, p⟩)] := by
      unfold mapSet
      rw [if_neg hh]
    constructor
    · show ((mapSet s.catalogueProducts (cpKey c p) ⟨c, p⟩).map Prod.fst).Nodup
      rw [hset, List.map_append]
      refine (List.perm_append_singleton _ _).nodup_iff.mpr ?_
      rw [List.nodup_cons]
      refine ⟨?_, h.1⟩
      intro hmem
      rcases List.mem_map.mp hmem with ⟨e, he, hke⟩
      exact absurd ((mapHas_iff _ _).mpr ⟨e, he, hke⟩) hh
    · intro e he
      rw [hset] at he
      rcases List.mem_append.mp he with he | he
      · exact h.2 e he
      · have : e = (cpKey c p, ⟨c, p⟩) := by simpa using he
        rw [this]
    -- the second `show` above targets the record's field

theorem addProductToCatalogue_of_has (t : MemStorage) (c p : Nat)
    (h : mapHas t.catalogueProducts (cpKey c p) = true) :
    addProductToCatalogue t c p = t := by
  simp only [addProductToCatalogue]
  rw [if_pos h]

theorem addProductToCatalogue_twice (s : MemStorage) (c p : Nat) :
    addProductToCatalogue (addProductToCatalogue s c p) c p
      = addProductToCatalogue s c p :=
  addProductToCatalogue_of_has (addProductToCatalogue s c p) c p (mapHas_add_self s c p)

/-- Claim C4: adding the same (catalogueId, productId) pair twice is a
no-op on the second call, leaves exactly one association row for the
pair, and `getProductsInCatalogue` lists an existing such product exactly
once. -/
theorem addProductToCatalogue_idempotent (s : MemStorage) (c p : Nat)
    (hcp : CPWF s) (hpr : ProductsWF s) (prod : Product)
    (hprod : getProduct s p = some prod) :
    addProductToCatalogue (addProductToCatalogue s c p) c p
        = addProductToCatalogue s c p ∧
    (mapValues ((addProductToCatalogue (addProductToCatalogue s c p) c p).catalogueProducts)).countP
        (fun e => e.catalogueId == c && e.productId == p) = 1 ∧
    (getProductsInCatalogue (addProductToCatalogue (addProductToCatalogue s c p) c p) c).countP
        (fun q => q.id == p) = 1 := by
  have hnoop := addProductToCatalogue_twice s c p
  have hwf1 := CPWF_add s c p hcp
  have hhas1 := mapHas_add_self s c p
  refine ⟨hnoop, ?_, ?_⟩
  · rw [hnoop]
    exact countP_cp_values_eq_one c p _ hwf1.1 hwf1.2 hhas1
  · rw [hnoop]
    unfold getProductsInCatalogue
    have hmemid : p ∈ ((mapValues (addProductToCatalogue s c p).catalogueProducts).filter
        (fun cp => cp.catalogueId == c)).map (fun cp => cp.productId) := by
      rcases (mapHas_iff _ _).mp hhas1 with ⟨e, he, hke⟩
      obtain ⟨h1, h2⟩ := cpKey_inj ((hwf1.2 e he).symm.trans hke)
      refine List.mem_map.mpr ⟨e.2, List.mem_filter.mpr ⟨List.mem_map_of_mem _ he, ?_⟩, h2⟩
      exact beq_iff_eq.mpr h1
    rw [List.countP_filter]
    have hiff : ∀ x ∈ mapValues (addProductToCatalogue s c p).products,
        ((x.id == p &&
          (((mapValues (addProductToCatalogue s c p).catalogueProducts).filter
            (fun cp => cp.catalogueId == c)).map (fun cp => cp.productId)).contains x.id) = true
          ↔ (x.id == p) = true) := by
      intro x _
      constructor
      · intro hx
        exact ((Bool.and_eq_true _ _).mp hx).1
      · intro hx
        rw [Bool.and_eq_true]
        refine ⟨hx, ?_⟩
        rw [beq_iff_eq.mp hx]
        exact List.elem_eq_true_of_mem hmemid
    rw [List.countP_congr hiff, addProductToCatalogue_products]
    exact countP_id_values_eq_one p _ hpr.1 hpr.2 (mapGet_some_mapHas _ _ _ hprod)

/-- `joinedStore` without its join rows: one product (id 2), empty join
table. -/
def productOnlyStore : MemStorage :=
  { emptyStorage with
      products :=
        [(2,
          { id := 2
            name := "Widget"
            description := none
            sku := "W-1"
            price := 5
            stock := 3
            stockStatus := StockStatus.in_stock
            imageUrl := none
            categoryId := 1
            userId := 1
            createdAt := 0 })]
      productId := 3 }

theorem addProductToCatalogue_idempotent_witness :
    addProductToCatalogue (addProductToCatalogue productOnlyStore 1 2) 1 2
        = addProductToCatalogue productOnlyStore 1 2 ∧
    (mapValues ((addProductToCatalogue (addProductToCatalogue productOnlyStore 1 2) 1 2).catalogueProducts)).countP
        (fun e => e.catalogueId == 1 && e.productId == 2) = 1 ∧
    (getProductsInCatalogue (addProductToCatalogue (addProductToCatalogue productOnlyStore 1 2) 1 2) 1).countP
        (fun q => q.id == 2) = 1 :=
  addProductToCatalogue_idempotent productOnlyStore 1 2 (by constructor <;> decide)
    (by constructor <;> decide)
    { id := 2, name := "Widget", description := none, sku := "W-1", price := 5, stock := 3,
      stockStatus := StockStatus.in_stock, imageUrl := none, categoryId := 1, userId := 1,
      createdAt := 0 } (by decide)

theorem deleteCatalogue_cascades_join_rows_witness :
    ((deleteCatalogue joinedStore 1).2).catalogueProducts = [(cpKey 7 2, ⟨7, 2⟩)] ∧
    getProductsInCatalogue (deleteCatalogue joinedStore 1).2 1 = [] :=
  ⟨by decide, (deleteCatalogue_cascades_join_rows joinedStore 1).2⟩

theorem createOrder_items_share_order_id_witness :
    (createOrder productOnlyStore shippedInsertOrder
        [{ orderId := 0, productId := 2, quantity := 1, price := 5 }] 0).1.id
      = productOnlyStore.orderId ∧
    mapGet ((createOrder productOnlyStore shippedInsertOrder
          [{ orderId := 0, productId := 2, quantity := 1, price := 5 }] 0).2).orderItems
        productOnlyStore.orderId
      = some ([({ orderId := 0, productId := 2, quantity := 1, price := 5 } : InsertOrderItem)].map
          (fun item =>
            ({ id := productOnlyStore.orderId
               orderId := productOnlyStore.orderId
               productId := item.productId
               quantity := item.quantity
               price := item.price } : OrderItem))) ∧
    ((createOrder productOnlyStore shippedInsertOrder
          [{ orderId := 0, productId := 2, quantity := 1, price := 5 }] 0).2).orderItemId
      = productOnlyStore.orderItemId +
          ([({ orderId := 0, productId := 2, quantity := 1, price := 5 } : InsertOrderItem)]).length :=
  createOrder_items_share_order_id productOnlyStore shippedInsertOrder
    [{ orderId := 0, productId := 2, quantity := 1, price := 5 }] 0

/-! ### Claim C7: `getPopularCatalogues` -/

/-- Claim C7: `getPopularCatalogues s uid limit` is the `limit`-prefix of a
stable descending-`viewCount` sort of the user's catalogues: the returned
list is sorted descending, any pair already in weakly-descending order in
the source list (in particular any tie) keeps its relative order in the
sort, every dropped catalogue has a `viewCount` no larger than every
returned one, and the declared default limit is 3. -/
theorem getPopularCatalogues_sorted_stable_take (s : MemStorage) (uid limit : Nat) :
    ∃ sortedC : List Catalogue,
      sortedC.Perm (getCatalogues s uid) ∧
      List.Sorted viewCountGe sortedC ∧
      (∀ a b : Catalogue, viewCountGe a b → List.Sublist [a, b] (getCatalogues s uid) →
        List.Sublist [a, b] sortedC) ∧
      getPopularCatalogues s uid limit = sortedC.take limit ∧
      (∀ x ∈ sortedC.drop limit, ∀ y ∈ getPopularCatalogues s uid limit,
        x.viewCount ≤ y.viewCount) ∧
      getPopularCataloguesDefault s uid = getPopularCatalogues s uid 3 := by
  refine ⟨(getCatalogues s uid).insertionSort viewCountGe,
    List.perm_insertionSort viewCountGe _, List.sorted_insertionSort viewCountGe _,
    fun a b hab hsub => List.pair_sublist_insertionSort hab hsub, rfl, ?_, rfl⟩
  intro x hx y hy
  have hs : List.Pairwise viewCountGe
      (((getCatalogues s uid).insertionSort viewCountGe).take limit ++
        ((getCatalogues s uid).insertionSort viewCountGe).drop limit) := by
    rw [List.take_append_drop]
    exact List.sorted_insertionSort viewCountGe _
  exact (List.pairwise_append.mp hs).2.2 y hy x hx

/-- Four catalogues for user 1 with viewCounts 5, 1, 9, 3 (insertion order). -/
def fourCataloguesStore : MemStorage :=
  { emptyStorage with
      catalogues :=
        [(1, { id := 1, name := "A", description := none, imageUrl := none, userId := 1,
               isPublic := some true, viewCount := 5, shareCount := 0, createdAt := 0 }),
         (2, { id := 2, name := "B", description := none, imageUrl := none, userId := 1,
               isPublic := some true, viewCount := 1, shareCount := 0, createdAt := 0 }),
         (3, { id := 3, name := "C", description := none, imageUrl := none, userId := 1,
               isPublic := some true, viewCount := 9, shareCount := 0, createdAt := 0 }),
         (4, { id := 4, name := "D", description := none, imageUrl := none, userId := 1,
               isPublic := some true, viewCount := 3, shareCount := 0, createdAt := 0 })]
      catalogueId := 5 }

theorem getPopularCatalogues_sorted_stable_take_witness :
    (getPopularCatalogues fourCataloguesStore 1 2).map (fun cc => cc.viewCount) = [9, 5] ∧
    (∃ sortedC : List Catalogue,
      sortedC.Perm (getCatalogues fourCataloguesStore 1) ∧
      List.Sorted viewCountGe sortedC ∧
      (∀ a b : Catalogue, viewCountGe a b →
        List.Sublist [a, b] (getCatalogues fourCataloguesStore 1) →
        List.Sublist [a, b] sortedC) ∧
      getPopularCatalogues fourCataloguesStore 1 2 = sortedC.take 2 ∧
      (∀ x ∈ sortedC.drop 2, ∀ y ∈ getPopularCatalogues fourCataloguesStore 1 2,
        x.viewCount ≤ y.viewCount) ∧
      getPopularCataloguesDefault fourCataloguesStore 1
        = getPopularCatalogues fourCataloguesStore 1 3) :=
  ⟨by decide, getPopularCatalogues_sorted_stable_take fourCataloguesStore 1 2⟩

end CatalogueStore
